import Mathlib

/-!
Shallow embedding of `screencapture.py` (class `ScreenshotAnnotator`) and
verification of the behavioural claims of its specification.

Modelling conventions:
* Qt integer geometry (`QPoint`, `QRect`) is embedded over `Int`, keeping Qt's
  inclusive-endpoint convention (`width = x2 - x1 + 1`, as in Qt's own QRect).
* The raster canvas (`QPixmap`) is a total function from pixel coordinates to
  an optional RGBA colour; `none` is the fully transparent pixel.  Painting
  primitives (line/rect rasterisation of `QPainter`) are external collaborators
  per the spec, so a committed shape is abstracted by the pixel set it paints
  in the fixed pen colour; `drawPixmap` compositing is source-over with the
  fully-opaque-or-transparent pixels this program produces.
* In `draw_arrow`, a Python float embeds exactly into `ℝ` and Python's
  `int(...)` conversion is truncation toward zero (`pyInt`); which reals the
  double-precision pipeline produces for the four barb-endpoint expressions
  is NOT modelled — they enter `draw_arrow` as parameters, related to the
  exact ±30° geometry only through an error hypothesis in the theorems.
* The GUI-only statements of the source (styling, button geometry, repaints,
  cursor shapes, widget visibility) have no behavioural content and are not
  part of the state.
-/

namespace Screencapture

/-! ### Qt geometry -/

/-- `QPoint`: an integer point. -/
structure Point where
  x : Int
  y : Int
deriving DecidableEq, Repr

instance : Add Point := ⟨fun a b => ⟨a.x + b.x, a.y + b.y⟩⟩
instance : Sub Point := ⟨fun a b => ⟨a.x - b.x, a.y - b.y⟩⟩

/-- `QRect`, stored as Qt stores it: both corners inclusive
(`x2 = x1 + width - 1`). -/
structure QRect where
  x1 : Int
  y1 : Int
  x2 : Int
  y2 : Int
deriving DecidableEq, Repr

/-- `QRect()` – the default-constructed null rectangle (Qt sets
`x2 = y2 = -1`). -/
def QRect.null : QRect := ⟨0, 0, -1, -1⟩

/-- `QRect(topLeft, bottomRight)`. -/
def QRect.fromPoints (tl br : Point) : QRect := ⟨tl.x, tl.y, br.x, br.y⟩

/-- `QRect(topLeft, QSize(w, h))`: `x2 = x + w - 1`, `y2 = y + h - 1`. -/
def QRect.fromPointSize (tl : Point) (w h : Int) : QRect :=
  ⟨tl.x, tl.y, tl.x + w - 1, tl.y + h - 1⟩

/-- `QRect::width() = x2 - x1 + 1`. -/
def QRect.width (r : QRect) : Int := r.x2 - r.x1 + 1

/-- `QRect::height() = y2 - y1 + 1`. -/
def QRect.height (r : QRect) : Int := r.y2 - r.y1 + 1

/-- `QRect::isValid(): x1 <= x2 && y1 <= y2`. -/
def QRect.isValid (r : QRect) : Bool := decide (r.x1 ≤ r.x2 ∧ r.y1 ≤ r.y2)

/-- `QRect::normalized()` (Qt 6: swap a coordinate pair when it is in the
wrong order). -/
def QRect.normalized (r : QRect) : QRect :=
  let nx : Int × Int := if r.x2 < r.x1 then (r.x2, r.x1) else (r.x1, r.x2)
  let ny : Int × Int := if r.y2 < r.y1 then (r.y2, r.y1) else (r.y1, r.y2)
  ⟨nx.1, ny.1, nx.2, ny.2⟩

/-- `QRect::topLeft()`. -/
def QRect.topLeft (r : QRect) : Point := ⟨r.x1, r.y1⟩

/-- `QRect::contains(point)` for a normalized rectangle (both borders
inclusive); the only call site builds the rectangle from a position and a
positive `QSize`, which is already normalized. -/
def QRect.contains (r : QRect) (p : Point) : Bool :=
  decide (r.x1 ≤ p.x ∧ p.x ≤ r.x2 ∧ r.y1 ≤ p.y ∧ p.y ≤ r.y2)

/-! ### Raster canvas -/

/-- An RGBA colour. -/
structure Color where
  r : Nat
  g : Nat
  b : Nat
  a : Nat
deriving DecidableEq, Repr

/-- A raster surface: each pixel is either transparent (`none`) or an opaque
colour.  The aliased `QPainter` drawing this program performs (no
antialiasing hint on the commit painter, pen alpha 255) paints pixels fully
opaque. -/
abbrev Canvas : Type := Point → Option Color

/-- `QPixmap.fill(Qt.GlobalColor.transparent)`. -/
def blank : Canvas := fun _ => none

/-- `self.pen = QPen(QColor(102, 204, 255), 4)` – the single pen used for
every committed shape. -/
def penColor : Color := ⟨102, 204, 255, 255⟩

/-- The pixel set painted by one committed shape (the `QPainter`
rasterisation of a rect / arrow / freestyle polyline is an external
collaborator; only the set of pixels it touches matters here). -/
abbrev PixelSet : Type := Point → Bool

/-- Painting a pixel set in the pen colour over a canvas
(`painter.drawRect` / `drawLine` etc. on `annotation_canvas`). -/
def drawOp (px : PixelSet) (c : Canvas) : Canvas :=
  fun p => if px p then some penColor else c p

/-- `painter.drawPixmap(0, 0, top)` onto `bot`: source-over compositing of
opaque-or-transparent pixels. -/
def over (bot top : Canvas) : Canvas :=
  fun p =>
    match top p with
    | some col => some col
    | none => bot p

/-- `bg_pixmap.copy(rect)`: the crop reads the source at
`local + rect.topLeft`. -/
def cropCanvas (bg : Canvas) (r : QRect) : Canvas :=
  fun p => bg (p + r.topLeft)

/-! ### Annotator state (`ScreenshotAnnotator` fields) -/

/-- `MODES = ['freestyle', 'rect', 'arrow', 'text']`. -/
inductive Mode where
  | freestyle
  | rect
  | arrow
  | text
deriving DecidableEq, Repr

/-- The mutable fields of `ScreenshotAnnotator` that carry behaviour
(widgets, styling and animation state omitted; `annotation_canvas` and
`annotation_base` are `None` before confirmation in Python and are modelled
as `blank` since every use is after `confirm_selection` initialises them). -/
structure AnnotatorState where
  bg_pixmap : Canvas
  strokes : List Point
  last_point : Point
  drawing : Bool
  selection_rect : QRect
  selection_confirmed : Bool
  annotation_base : Canvas
  annotation_canvas : Canvas
  mode : Mode
  ann_drawing : Bool
  ann_start_point : Point
  ann_end_point : Point
  ann_temp_path : List Point
  ann_actions : List Canvas
  text_items : List (Point × String)
  selected_text : Option (Point × String)
  drag_offset : Point

/-- `__init__`, given the captured screen (`ImageGrab.grab()` is an external
collaborator). -/
def initState (bg : Canvas) : AnnotatorState where
  bg_pixmap := bg
  strokes := []
  last_point := ⟨0, 0⟩
  drawing := false
  selection_rect := QRect.null
  selection_confirmed := false
  annotation_base := blank
  annotation_canvas := blank
  mode := Mode.freestyle
  ann_drawing := false
  ann_start_point := ⟨0, 0⟩
  ann_end_point := ⟨0, 0⟩
  ann_temp_path := []
  ann_actions := []
  text_items := []
  selected_text := none
  drag_offset := ⟨0, 0⟩

/-! ### Selection phase -/

/-- `min` over a non-empty Python iterable (`min(p.x() for p in strokes)`);
the `[]` case is never reached at the call site. -/
def listMin : List Int → Int
  | [] => 0
  | x :: xs => xs.foldl min x

/-- `max` over a non-empty Python iterable. -/
def listMax : List Int → Int
  | [] => 0
  | x :: xs => xs.foldl max x

/-- `computeBoundingRect`. -/
def computeBoundingRect (s : AnnotatorState) : AnnotatorState :=
  match s.strokes with
  | [] => s
  | p :: ps =>
    let xs := (p :: ps).map Point.x
    let ys := (p :: ps).map Point.y
    { s with selection_rect :=
        (QRect.fromPoints ⟨listMin xs, listMin ys⟩ ⟨listMax xs, listMax ys⟩).normalized }

/-- `confirm_selection` (the chat-widget geometry and `show()` calls are
GUI-only). -/
def confirm_selection (s : AnnotatorState) : AnnotatorState :=
  if s.selection_rect.isValid = false then s
  else
    { s with
      selection_confirmed := true
      annotation_base := cropCanvas s.bg_pixmap s.selection_rect
      annotation_canvas := blank
      ann_actions := []
      text_items := []
      mode := Mode.freestyle }

/-- The selection branch of `mousePressEvent` (left button,
`selection_confirmed` false). -/
def selectionMousePress (s : AnnotatorState) (pt : Point) : AnnotatorState :=
  { s with drawing := true, strokes := [pt], last_point := pt }

/-- The selection branch of `mouseMoveEvent`. -/
def selectionMouseMove (s : AnnotatorState) (pt : Point) : AnnotatorState :=
  if s.drawing then { s with strokes := s.strokes ++ [pt], last_point := pt } else s

/-- The selection branch of `mouseReleaseEvent` (left button): stop drawing,
derive the bounding rectangle, attempt confirmation. -/
def selectionMouseRelease (s : AnnotatorState) : AnnotatorState :=
  if s.drawing then confirm_selection (computeBoundingRect { s with drawing := false })
  else s

/-! ### Annotation phase -/

/-- The per-item hit box `QRect(pos, QSize(200, 30))`. -/
def textItemRect (pos : Point) : QRect := QRect.fromPointSize pos 200 30

/-- The hit test of `annotation_mousePressEvent` in text mode:
`for pos, txt in reversed(self.text_items)` — first hit in reverse insertion
order. -/
def hitText (items : List (Point × String)) (pt : Point) : Option (Point × String) :=
  items.reverse.find? (fun it => (textItemRect it.1).contains pt)

/-- `annotation_mousePressEvent` (left button).  `dialog` is the reply of the
synchronous text-entry collaborator `QInputDialog.getText`, consulted only on
the no-hit text path. -/
def annotation_mousePressEvent (s : AnnotatorState) (screenPt : Point)
    (dialog : String × Bool) : AnnotatorState :=
  let pt := screenPt - s.selection_rect.topLeft
  let s1 := { s with ann_drawing := true, ann_start_point := pt, ann_end_point := pt }
  match s1.mode with
  | Mode.freestyle => { s1 with ann_temp_path := [pt] }
  | Mode.rect => s1
  | Mode.arrow => s1
  | Mode.text =>
    match hitText s1.text_items pt with
    | some item => { s1 with selected_text := some item, drag_offset := pt - item.1 }
    | none =>
      let s2 := { s1 with ann_drawing := false }
      if dialog.2 = true ∧ dialog.1 ≠ "" then
        { s2 with
          text_items := s2.text_items ++ [(pt, dialog.1)]
          ann_actions := s2.ann_actions ++ [s2.annotation_canvas] }
      else s2

/-- `annotation_mouseReleaseEvent` (left button).  `px` is the pixel set the
painter rasterises for the current shape (rect / arrow / freestyle). -/
def annotation_mouseReleaseEvent (px : PixelSet) (s : AnnotatorState) : AnnotatorState :=
  match s.selected_text with
  | some _ => { s with selected_text := none }
  | none =>
    if s.ann_drawing then
      let c := drawOp px s.annotation_canvas
      { s with ann_drawing := false, annotation_canvas := c,
               ann_actions := s.ann_actions ++ [c] }
    else s

/-- `redraw_canvas`: refill transparent, then `drawPixmap` every stored
snapshot in order. -/
def redraw_canvas (actions : List Canvas) : Canvas := actions.foldl over blank

/-- `undo`: `if self.ann_actions: self.ann_actions.pop(); self.redraw_canvas()`
(an empty list is falsy, so an empty stack is a no-op). -/
def undo (s : AnnotatorState) : AnnotatorState :=
  if s.ann_actions.isEmpty then s
  else
    let acts := s.ann_actions.dropLast
    { s with ann_actions := acts, annotation_canvas := redraw_canvas acts }

/-- `restart_selection` (button removal, cursor and widget hiding are
GUI-only; only these two fields change). -/
def restart_selection (s : AnnotatorState) : AnnotatorState :=
  { s with selection_confirmed := false, selection_rect := QRect.null }

/-- One committed stroke: a press at a point (in a non-text mode the dialog
is never consulted) followed by a release rasterising pixel set `px`. -/
def strokeStep (s : AnnotatorState) (stroke : Point × PixelSet) : AnnotatorState :=
  annotation_mouseReleaseEvent stroke.2 (annotation_mousePressEvent s stroke.1 ("", false))

/-- A sequence of committed strokes. -/
def runStrokes (s : AnnotatorState) (strokes : List (Point × PixelSet)) : AnnotatorState :=
  strokes.foldl strokeStep s

/-! ### Coordinate mapping -/

/-- `pt = event.position().toPoint() - self.selection_rect.topLeft()`. -/
def toLocal (r : QRect) (p : Point) : Point := p - r.topLeft

/-- `painter.translate(self.selection_rect.topLeft())`: local geometry is
drawn at `local + topLeft`. -/
def toScreen (r : QRect) (p : Point) : Point := p + r.topLeft

/-! ### Undo-stack invariant machinery -/

/-- `top` covers `bot`: wherever `top` is transparent, `bot` is too.  Holds
between consecutive undo snapshots because the canvas only gains pixels. -/
def Covers (top bot : Canvas) : Prop := ∀ p, top p = none → bot p = none

/-- The stored snapshots form a covering chain. -/
def CanvasChain (l : List Canvas) : Prop := List.Chain' (fun a b => Covers b a) l

/-- The reachable-state invariant of the annotation engine: the snapshots are
a covering chain, the live canvas equals the newest snapshot (blank when the
stack is empty), no text drag is active and the mode is a raster mode. -/
def AnnInv (s : AnnotatorState) : Prop :=
  CanvasChain s.ann_actions ∧
  s.annotation_canvas = s.ann_actions.getLastD blank ∧
  s.selected_text = none ∧
  s.mode ≠ Mode.text

/-! ### Chat session -/

/-- `ChatMessagePart`: the dicts appended to `message_content`. -/
inductive ChatPart where
  | text (s : String)
  | imageUrl (url : String)
deriving DecidableEq, Repr

/-- A chat-history entry: user messages carry a part list, assistant
messages carry the full response string (`finalize_llm_response`). -/
inductive ChatMessage where
  | user (content : List ChatPart)
  | assistant (content : String)
deriving DecidableEq, Repr

/-- Message roles. -/
inductive Role where
  | user
  | assistant
deriving DecidableEq, Repr

/-- `msg["role"]`. -/
def ChatMessage.role : ChatMessage → Role
  | ChatMessage.user _ => Role.user
  | ChatMessage.assistant _ => Role.assistant

/-- `self.chat_history`. -/
abbrev ChatHistory : Type := List ChatMessage

/-- `message_content` construction in `send_message`: text part first when
the stripped input is non-empty, then the image part when an encoded image
is available. -/
def buildContent (userMessage : String) (encodedImage : Option String) : List ChatPart :=
  (if userMessage ≠ "" then [ChatPart.text userMessage] else []) ++
    (match encodedImage with
     | some e => [ChatPart.imageUrl ("data:image/png;base64," ++ e)]
     | none => [])

/-- The `chat_history` effect of `send_message` (lines guarded by
`if message_content:`): append a fresh user message when the history is
empty or ends with an assistant message, otherwise extend the last (user)
message's content list. -/
def send_message (parts : List ChatPart) (h : ChatHistory) : ChatHistory :=
  if parts.isEmpty then h
  else
    match h.getLast? with
    | none => h ++ [ChatMessage.user parts]
    | some (ChatMessage.assistant _) => h ++ [ChatMessage.user parts]
    | some (ChatMessage.user l) => h.dropLast ++ [ChatMessage.user (l ++ parts)]

/-- `finalize_llm_response`. -/
def finalize_llm_response (h : ChatHistory) (full : String) : ChatHistory :=
  h ++ [ChatMessage.assistant full]

/-! ### Streaming client -/

/-- The cross-thread events `get_llm_response` can emit. -/
inductive LlmEvent where
  | chunkReceived (s : String)
  | streamFinished (s : String)
deriving DecidableEq, Repr

/-- The fixed first chunk `"<i>LLM:</i> "`. -/
def introChunk : String := "<i>LLM:</i> "

/-- The inline error notice emitted by the `except` branch. -/
def errorChunk (e : String) : String := "<i>LLM Error:</i> " ++ e

/-- The delta contents that pass `if chunk.choices[0].delta.content:`
(Python truthiness: `None` and `""` are skipped). -/
def contentChunks (chunks : List (Option String)) : List String :=
  chunks.filterMap (fun c =>
    match c with
    | some s => if s = "" then none else some s
    | none => none)

/-- `full_response_content`, accumulated with `+=` over the accepted
chunks. -/
def fullResponse (chunks : List (Option String)) : String :=
  chunks.foldl
    (fun acc c =>
      match c with
      | some s => if s = "" then acc else acc ++ s
      | none => acc)
    ""

/-- The event trace of a successful `get_llm_response` run over the given
delta contents: the intro chunk, one `chunkReceived` per accepted chunk,
then a single `streamFinished` with the accumulated text. -/
def llmEventsOk (chunks : List (Option String)) : List LlmEvent :=
  LlmEvent.chunkReceived introChunk ::
    ((contentChunks chunks).map LlmEvent.chunkReceived ++
      [LlmEvent.streamFinished (fullResponse chunks)])

/-- The event trace of a failing `get_llm_response` run: the collaborator
raises after delivering `chunks`, so the `except` branch emits only the
inline error notice and no `streamFinished`. -/
def llmEventsFail (chunks : List (Option String)) (err : String) : List LlmEvent :=
  LlmEvent.chunkReceived introChunk ::
    ((contentChunks chunks).map LlmEvent.chunkReceived ++
      [LlmEvent.chunkReceived (errorChunk err)])

/-- The `chat_history` effect of one delivered event: `append_chat_chunk`
only touches the display, `finalize_llm_response` appends the assistant
message. -/
def applyLlmEvent (h : ChatHistory) : LlmEvent → ChatHistory
  | LlmEvent.chunkReceived _ => h
  | LlmEvent.streamFinished full => finalize_llm_response h full

/-- Events applied in arrival order on the owning context. -/
def applyLlmEvents (h : ChatHistory) (evs : List LlmEvent) : ChatHistory :=
  evs.foldl applyLlmEvent h

/-- Is this event the end-of-stream commit? -/
def isFinished : LlmEvent → Bool
  | LlmEvent.streamFinished _ => true
  | LlmEvent.chunkReceived _ => false

/-- The operations that mutate `chat_history`. -/
inductive ChatOp where
  | send (parts : List ChatPart)
  | finish (full : String)

/-- Apply one chat operation. -/
def applyChatOp (h : ChatHistory) : ChatOp → ChatHistory
  | ChatOp.send ps => send_message ps h
  | ChatOp.finish f => finalize_llm_response h f

/-- Any interleaving of sends and stream completions from the initial empty
history. -/
def runChat (ops : List ChatOp) : ChatHistory := ops.foldl applyChatOp []

/-- The adjacency discipline claimed of `chat_history`: adjacent messages
have distinct roles, or the later one is an assistant message. -/
def RolesOk (h : ChatHistory) : Prop :=
  List.Chain' (fun a b => a.role ≠ b.role ∨ b.role = Role.assistant) h

/-! ### Arrow geometry (`draw_arrow`) -/

/-- `math.atan2`. -/
noncomputable def atan2 (y x : ℝ) : ℝ :=
  if 0 < x then Real.arctan (y / x)
  else if x < 0 then
    (if 0 ≤ y then Real.arctan (y / x) + Real.pi else Real.arctan (y / x) - Real.pi)
  else if 0 < y then Real.pi / 2
  else if y < 0 then -(Real.pi / 2)
  else 0

/-- Python `int(...)` on a float: truncation toward zero. -/
noncomputable def pyInt (x : ℝ) : ℤ := if 0 ≤ x then ⌊x⌋ else ⌈x⌉

/-- `angle = math.atan2(p2.y() - p1.y(), p2.x() - p1.x())`. -/
noncomputable def arrowAngle (p1 p2 : Point) : ℝ :=
  atan2 ((p2.y - p1.y : Int) : ℝ) ((p2.x - p1.x : Int) : ℝ)

/-- The exact real x-coordinate of the point at angular offset `off` from
the shaft angle at the fixed barb length (`length = 10`) from the tip —
the ideal value of the expression `p2.x() - length * math.cos(angle1)`;
the program evaluates it in double precision, which is not modelled. -/
noncomputable def barbRealX (p1 p2 : Point) (off : ℝ) : ℝ :=
  (p2.x : ℝ) - 10 * Real.cos (arrowAngle p1 p2 + off)

/-- The exact real y-coordinate of that point (ideal value of
`p2.y() - length * math.sin(angle1)`). -/
noncomputable def barbRealY (p1 p2 : Point) (off : ℝ) : ℝ :=
  (p2.y : ℝ) - 10 * Real.sin (arrowAngle p1 p2 + off)

/-- `draw_arrow`: the three line segments painted — the shaft and the two
barbs meeting at the terminal point.  `f1x f1y` (resp. `f2x f2y`) are the
doubles the program's float pipeline produced for the two coordinate
expressions of `arrow_p1` (at `angle + math.pi/6`, resp. `arrow_p2` at
`angle - math.pi/6`), embedded exactly into `ℝ`; the `QPoint` constructor
applies `int(...)` (truncation toward zero) to each. -/
noncomputable def draw_arrow (p1 p2 : Point) (f1x f1y f2x f2y : ℝ) :
    List (Point × Point) :=
  [(p1, p2), (p2, ⟨pyInt f1x, pyInt f1y⟩), (p2, ⟨pyInt f2x, pyInt f2y⟩)]

/-- Follows the spec's words: some integer pixel point lies *exactly* at the
given angular offset from the shaft direction at the fixed barb length 10
from the tip.  The claim asserts this of each drawn barb endpoint (every
drawn endpoint is an integer `QPoint`), so the claim at a given arrow
entails this proposition whatever the float pipeline computes. -/
def ExactBarbPixelExists (p1 p2 : Point) (off : ℝ) : Prop :=
  ∃ b : Point, (b.x : ℝ) = barbRealX p1 p2 off ∧ (b.y : ℝ) = barbRealY p1 p2 off

/-! ### Concrete states used by witnesses and counterexamples -/

/-- A post-confirmation annotator state: a 50×50 selection confirmed on a
blank capture. -/
def annotInit : AnnotatorState :=
  confirm_selection
    { initState blank with selection_rect := QRect.fromPoints ⟨0, 0⟩ ⟨49, 49⟩ }

/-- A single-pixel stroke rasterisation. -/
def px0 : PixelSet := fun p => decide (p = ⟨3, 3⟩)

/-- A confirmed state with one text item and one undo snapshot, used to
examine `restart_selection`. -/
def restartProbe : AnnotatorState :=
  { annotInit with text_items := [(⟨1, 2⟩, "hi")], ann_actions := [blank] }

/-! ## Theorems -/

/-! ### C8: coordinate mapping round-trip -/

/-- **C8** (confirmed): for every point `p` and every selection rectangle,
`toScreen (toLocal p) = p` and `toLocal (toScreen p) = p`: the translation by
`selection_rect.topLeft` is an exact integer round-trip. -/
theorem coordinate_roundtrip (r : QRect) (p : Point) :
    toScreen r (toLocal r p) = p ∧ toLocal r (toScreen r p) = p := by
  cases p with
  | mk px py =>
    constructor
    · show Point.mk (px - r.x1 + r.x1) (py - r.y1 + r.y1) = Point.mk px py
      simp
    · show Point.mk (px + r.x1 - r.x1) (py + r.y1 - r.y1) = Point.mk px py
      simp

/-! ### C5: user-turn merge rule -/

/-- **C5** (confirmed): with non-empty part lists, `send_message` appends a
fresh user message when the history is empty or ends with an assistant
message, and two such sends with no intervening assistant message leave
exactly one new user message carrying the concatenated parts; when the
history ends with a user message, that message's parts are extended and no
new message is created. -/
theorem send_message_turn_merge (ps1 ps2 : List ChatPart) (h : ChatHistory)
    (h1 : ps1 ≠ []) (h2 : ps2 ≠ []) :
    ((h = [] ∨ ∃ a, h.getLast? = some (ChatMessage.assistant a)) →
      send_message ps1 h = h ++ [ChatMessage.user ps1] ∧
      send_message ps2 (send_message ps1 h) = h ++ [ChatMessage.user (ps1 ++ ps2)]) ∧
    (∀ (h0 : ChatHistory) (l : List ChatPart), h = h0 ++ [ChatMessage.user l] →
      send_message ps1 h = h0 ++ [ChatMessage.user (l ++ ps1)]) := by
  have e1 : ps1.isEmpty = false := by cases ps1 <;> simp_all
  have e2 : ps2.isEmpty = false := by cases ps2 <;> simp_all
  constructor
  · rintro (rfl | ⟨a, hlast⟩)
    · constructor
      · simp [send_message, e1]
      · simp [send_message, e1, e2, List.getLast?_concat]
    · have step1 : send_message ps1 h = h ++ [ChatMessage.user ps1] := by
        simp [send_message, e1, hlast]
      refine ⟨step1, ?_⟩
      rw [step1]
      simp [send_message, e2, List.getLast?_concat, List.dropLast_concat]
  · rintro h0 l rfl
    simp [send_message, e1, List.getLast?_concat, List.dropLast_concat]

/-- Witness for **C5**: sending `"hello"` then `"world"` with no assistant
reply in between yields one user message with both text parts. -/
theorem send_message_turn_merge_witness :
    send_message [ChatPart.text "world"] (send_message [ChatPart.text "hello"] []) =
      [ChatMessage.user [ChatPart.text "hello", ChatPart.text "world"]] := by
  have hm := (send_message_turn_merge [ChatPart.text "hello"] [ChatPart.text "world"] []
    (by simp) (by simp)).1 (Or.inl rfl)
  simpa using hm.2

/-! ### C10: no two consecutive user messages -/

theorem rolesOk_send (ps : List ChatPart) (h : ChatHistory) (hh : RolesOk h) :
    RolesOk (send_message ps h) := by
  unfold send_message
  by_cases hps : ps.isEmpty = true
  · rw [if_pos hps]; exact hh
  · rw [if_neg hps]
    rcases List.eq_nil_or_concat h with rfl | ⟨L, b, rfl⟩
    · show RolesOk ([] ++ [ChatMessage.user ps])
      simp [RolesOk]
    · simp only [List.concat_eq_append] at hh ⊢
      rw [List.getLast?_concat]
      cases b with
      | assistant a =>
        show RolesOk ((L ++ [ChatMessage.assistant a]) ++ [ChatMessage.user ps])
        unfold RolesOk at hh ⊢
        rw [List.chain'_append] at hh
        rw [List.append_assoc, List.chain'_append]
        refine ⟨hh.1, ?_, ?_⟩
        · rw [List.chain'_append]
          refine ⟨List.chain'_singleton _, List.chain'_singleton _, ?_⟩
          intro x hx y hy
          simp at hx hy
          subst hx
          subst hy
          left
          simp [ChatMessage.role]
        · intro x hx y hy
          simp at hy
          subst hy
          exact hh.2.2 x hx (ChatMessage.assistant a) (by simp)
      | user l =>
        show RolesOk ((L ++ [ChatMessage.user l]).dropLast ++ [ChatMessage.user (l ++ ps)])
        rw [List.dropLast_concat]
        unfold RolesOk at hh ⊢
        rw [List.chain'_append] at hh ⊢
        refine ⟨hh.1, List.chain'_singleton _, ?_⟩
        intro x hx y hy
        simp at hy
        subst hy
        have hxz := hh.2.2 x hx (ChatMessage.user l) (by simp)
        simpa [ChatMessage.role] using hxz

theorem rolesOk_finish (f : String) (h : ChatHistory) (hh : RolesOk h) :
    RolesOk (finalize_llm_response h f) := by
  unfold RolesOk at hh ⊢
  unfold finalize_llm_response
  rw [List.chain'_append]
  refine ⟨hh, List.chain'_singleton _, ?_⟩
  intro x hx y hy
  simp at hy
  subst hy
  right
  rfl

/-- **C10** (confirmed): after any sequence of `send_message` and
stream-completion (`finalize_llm_response`) operations on the initially
empty history, adjacent messages have distinct roles or the later one is an
assistant message — in particular the history never holds two consecutive
user messages; user content only grows by merging parts into the last
message. -/
theorem chat_history_roles_invariant (ops : List ChatOp) : RolesOk (runChat ops) := by
  suffices hgen : ∀ h, RolesOk h → RolesOk (ops.foldl applyChatOp h) from
    hgen [] List.chain'_nil
  induction ops with
  | nil => intro h hh; exact hh
  | cons op ops ih =>
    intro h hh
    cases op with
    | send ps => exact ih _ (rolesOk_send ps h hh)
    | finish f => exact ih _ (rolesOk_finish f h hh)

/-! ### C6 / C7: streaming commit discipline -/

theorem fullResponse_map_some (cs : List String) :
    fullResponse (cs.map some) = String.join cs := by
  have aux : ∀ (l : List String) (acc : String),
      (l.map some).foldl
        (fun acc c =>
          match c with
          | some s => if s = "" then acc else acc ++ s
          | none => acc) acc
        = l.foldl (fun r s => r ++ s) acc := by
    intro l
    induction l with
    | nil => intro acc; rfl
    | cons c cs ih =>
      intro acc
      simp only [List.map_cons, List.foldl_cons]
      rw [ih]
      congr 1
      show (if c = "" then acc else acc ++ c) = acc ++ c
      by_cases hc : c = ""
      · subst hc; simp
      · simp [hc]
  exact aux cs ""

theorem applyLlmEvents_chunks (h : ChatHistory) (cc : List String) :
    applyLlmEvents h (cc.map LlmEvent.chunkReceived) = h := by
  induction cc generalizing h with
  | nil => rfl
  | cons c cc ih => exact ih h

theorem countP_chunks (cc : List String) :
    (cc.map LlmEvent.chunkReceived).countP isFinished = 0 := by
  induction cc with
  | nil => rfl
  | cons c cc ih => simp [List.countP_cons, isFinished, ih]

/-- **C6** (confirmed): for a successfully completed stream delivering the
chunks `cs` in order, the event trace contains exactly one end-of-stream
commit (`streamFinished`, i.e. `finalize_llm_response` runs exactly once,
never per chunk), and applying the trace appends exactly one assistant
message whose text is the concatenation of the chunks. -/
theorem stream_success_commits_once (cs : List String) (h : ChatHistory) :
    (llmEventsOk (cs.map some)).countP isFinished = 1 ∧
    applyLlmEvents h (llmEventsOk (cs.map some)) =
      h ++ [ChatMessage.assistant (String.join cs)] := by
  constructor
  · simp [llmEventsOk, List.countP_cons, List.countP_append, isFinished, countP_chunks]
  · have h1 : applyLlmEvents h (llmEventsOk (cs.map some)) =
        applyLlmEvent
          (applyLlmEvents h ((contentChunks (cs.map some)).map LlmEvent.chunkReceived))
          (LlmEvent.streamFinished (fullResponse (cs.map some))) := by
      unfold llmEventsOk applyLlmEvents
      rw [List.foldl_cons, List.foldl_append]
      rfl
    rw [h1, applyLlmEvents_chunks, fullResponse_map_some]
    rfl

/-- **C7** (confirmed): when the completion collaborator raises after
delivering some chunks, the event trace updates `chat_history` not at all
(no assistant message is appended), contains no end-of-stream commit, and
its last event is the inline error notice on the conversation display. -/
theorem stream_failure_no_assistant (chunks : List (Option String)) (err : String)
    (h : ChatHistory) :
    applyLlmEvents h (llmEventsFail chunks err) = h ∧
    (llmEventsFail chunks err).countP isFinished = 0 ∧
    (llmEventsFail chunks err).getLast? =
      some (LlmEvent.chunkReceived (errorChunk err)) := by
  refine ⟨?_, ?_, ?_⟩
  · have h1 : applyLlmEvents h (llmEventsFail chunks err) =
        applyLlmEvent
          (applyLlmEvents h ((contentChunks chunks).map LlmEvent.chunkReceived))
          (LlmEvent.chunkReceived (errorChunk err)) := by
      unfold llmEventsFail applyLlmEvents
      rw [List.foldl_cons, List.foldl_append]
      rfl
    rw [h1, applyLlmEvents_chunks]
    rfl
  · simp [llmEventsFail, List.countP_cons, List.countP_append, isFinished, countP_chunks]
  · show (LlmEvent.chunkReceived introChunk :: ((contentChunks chunks).map
      LlmEvent.chunkReceived ++ [LlmEvent.chunkReceived (errorChunk err)])).getLast? = _
    rw [← List.cons_append, List.getLast?_concat]

/-! ### C1: adding a text item -/

/-- Counterexample to **C1** as stated: in Text mode with no hit and a
non-empty confirmed string, the source *does* push a snapshot onto the undo
stack (`self.ann_actions.append(self.annotation_canvas.copy())`), so the
undo stack does not stay unchanged. -/
theorem text_add_cex :
    ¬ ((annotation_mousePressEvent { annotInit with mode := Mode.text } ⟨3, 4⟩
          ("hi", true)).ann_actions
        = ({ annotInit with mode := Mode.text } : AnnotatorState).ann_actions) := by
  intro hEq
  have h1 : (annotation_mousePressEvent { annotInit with mode := Mode.text } ⟨3, 4⟩
      ("hi", true)).ann_actions.length = 1 := rfl
  have h0 : ({ annotInit with mode := Mode.text } : AnnotatorState).ann_actions.length
      = 0 := rfl
  rw [hEq, h0] at h1
  exact absurd h1 (by decide)

/-- **C1** (amended): in Text mode, when the press does not hit an existing
text item and the text-entry collaborator confirms a non-empty string, a new
TextItem is appended and the Canvas raster is not mutated, but a snapshot
(a copy of the unchanged Canvas) *is* pushed onto the undo stack. -/
theorem text_add_amended (s : AnnotatorState) (screenPt : Point) (txt : String)
    (hmode : s.mode = Mode.text)
    (hmiss : hitText s.text_items (screenPt - s.selection_rect.topLeft) = none)
    (htxt : txt ≠ "") :
    (annotation_mousePressEvent s screenPt (txt, true)).text_items
        = s.text_items ++ [(screenPt - s.selection_rect.topLeft, txt)] ∧
    (annotation_mousePressEvent s screenPt (txt, true)).annotation_canvas
        = s.annotation_canvas ∧
    (annotation_mousePressEvent s screenPt (txt, true)).ann_actions
        = s.ann_actions ++ [s.annotation_canvas] := by
  unfold annotation_mousePressEvent
  simp only [hmode, hmiss, htxt]
  rw [if_pos ⟨trivial, htxt⟩]
  exact ⟨rfl, rfl, rfl⟩

/-- Witness for **C1**: a concrete text add on a freshly confirmed selection
leaves a one-snapshot undo stack. -/
theorem text_add_amended_witness :
    (annotation_mousePressEvent { annotInit with mode := Mode.text } ⟨3, 4⟩
      ("hi", true)).ann_actions = [blank] := by
  have hm := text_add_amended { annotInit with mode := Mode.text } ⟨3, 4⟩ "hi"
    rfl rfl (by decide)
  exact hm.2.2.trans rfl

/-! ### C2: zero-area drags still confirm -/

theorem foldl_min_le_init (l : List Int) (a : Int) : l.foldl min a ≤ a := by
  induction l generalizing a with
  | nil => exact le_refl a
  | cons x xs ih => exact le_trans (ih (min a x)) (min_le_left a x)

theorem init_le_foldl_max (l : List Int) (a : Int) : a ≤ l.foldl max a := by
  induction l generalizing a with
  | nil => exact le_refl a
  | cons x xs ih => exact le_trans (le_max_left a x) (ih (max a x))

theorem listMin_le_listMax (x : Int) (xs : List Int) :
    listMin (x :: xs) ≤ listMax (x :: xs) :=
  le_trans (foldl_min_le_init xs x) (init_le_foldl_max xs x)

theorem normalized_of_le (r : QRect) (hx : r.x1 ≤ r.x2) (hy : r.y1 ≤ r.y2) :
    r.normalized = r := by
  unfold QRect.normalized
  rw [if_neg (not_lt.mpr hx), if_neg (not_lt.mpr hy)]

/-- Counterexample to **C2** as stated: a press and release at the single
point `(7, 9)` — recorded points of zero geometric extent — is *not*
discarded: the selection is confirmed, with the degenerate one-pixel
rectangle, because `QRect(p, p)` is valid in Qt's inclusive-coordinate
convention. -/
theorem zero_area_confirms_cex :
    (selectionMouseRelease (selectionMousePress (initState blank) ⟨7, 9⟩)).selection_confirmed
        = true ∧
    (selectionMouseRelease (selectionMousePress (initState blank) ⟨7, 9⟩)).selection_rect
        = ⟨7, 9, 7, 9⟩ :=
  ⟨rfl, rfl⟩

/-- **C2** (amended): releasing a drag with at least one recorded point
always confirms the selection: the derived rectangle is the normalized
bounding box of the recorded points, and in Qt's inclusive-coordinate
convention its width and height are at least 1, so `isValid` never rejects
it.  (A zero-extent drag is therefore confirmed, not discarded; only the
null rectangle would be rejected, and `computeBoundingRect` never produces
it.) -/
theorem drag_release_confirms (s : AnnotatorState) (p : Point) (ps : List Point)
    (hdraw : s.drawing = true) (hstrokes : s.strokes = p :: ps) :
    (selectionMouseRelease s).selection_confirmed = true ∧
    (selectionMouseRelease s).selection_rect =
      QRect.fromPoints ⟨listMin ((p :: ps).map Point.x), listMin ((p :: ps).map Point.y)⟩
        ⟨listMax ((p :: ps).map Point.x), listMax ((p :: ps).map Point.y)⟩ ∧
    1 ≤ (selectionMouseRelease s).selection_rect.width ∧
    1 ≤ (selectionMouseRelease s).selection_rect.height := by
  have hminx : listMin (p.x :: ps.map Point.x) ≤ listMax (p.x :: ps.map Point.x) :=
    listMin_le_listMax p.x (ps.map Point.x)
  have hminy : listMin (p.y :: ps.map Point.y) ≤ listMax (p.y :: ps.map Point.y) :=
    listMin_le_listMax p.y (ps.map Point.y)
  have hvalid : (QRect.fromPoints
      ⟨listMin (p.x :: ps.map Point.x), listMin (p.y :: ps.map Point.y)⟩
      ⟨listMax (p.x :: ps.map Point.x), listMax (p.y :: ps.map Point.y)⟩).isValid = true := by
    unfold QRect.isValid
    rw [decide_eq_true_eq]
    exact ⟨hminx, hminy⟩
  unfold selectionMouseRelease
  rw [if_pos hdraw]
  unfold computeBoundingRect
  simp only [hstrokes]
  rw [normalized_of_le _ hminx hminy]
  unfold confirm_selection
  rw [if_neg (by simp [hvalid])]
  refine ⟨rfl, rfl, ?_, ?_⟩
  · show (1 : Int) ≤ listMax (p.x :: ps.map Point.x) - listMin (p.x :: ps.map Point.x) + 1
    omega
  · show (1 : Int) ≤ listMax (p.y :: ps.map Point.y) - listMin (p.y :: ps.map Point.y) + 1
    omega

/-- Witness for **C2** (amended): the single-point press-release at `(5, 5)`
confirms. -/
theorem drag_release_confirms_witness :
    (selectionMouseRelease (selectionMousePress (initState blank) ⟨5, 5⟩)).selection_confirmed
      = true :=
  (drag_release_confirms (selectionMousePress (initState blank) ⟨5, 5⟩) ⟨5, 5⟩ []
    rfl rfl).1

/-! ### C3: restart only resets the confirmation flag and rectangle -/

/-- Counterexample to **C3** as stated: restarting from a confirmed state
with one text item and one undo snapshot leaves both intact — the TextItem
list, undo stack (and canvas) survive into the next Idle state. -/
theorem restart_cex :
    (restart_selection restartProbe).selection_confirmed = false ∧
    (restart_selection restartProbe).text_items = [(⟨1, 2⟩, "hi")] ∧
    (restart_selection restartProbe).ann_actions.length = 1 := by
  exact ⟨rfl, rfl, rfl⟩

/-- **C3** (amended): `restart_selection` resets only the confirmation flag
and the selection rectangle (to the null rect); the Canvas, undo stack and
TextItem list are left untouched and are cleared only by the next
`confirm_selection`. -/
theorem restart_amended (s : AnnotatorState) :
    (restart_selection s).selection_confirmed = false ∧
    (restart_selection s).selection_rect = QRect.null ∧
    (restart_selection s).annotation_canvas = s.annotation_canvas ∧
    (restart_selection s).ann_actions = s.ann_actions ∧
    (restart_selection s).text_items = s.text_items ∧
    (s.selection_rect.isValid = true →
      (confirm_selection s).annotation_canvas = blank ∧
      (confirm_selection s).ann_actions = [] ∧
      (confirm_selection s).text_items = []) := by
  refine ⟨rfl, rfl, rfl, rfl, rfl, ?_⟩
  intro hv
  unfold confirm_selection
  rw [hv]
  simp

/-- Witness for **C3** (amended): on the concrete probe state, restart keeps
the text item and the following confirmation clears it. -/
theorem restart_amended_witness :
    (restart_selection restartProbe).text_items = restartProbe.text_items ∧
    (confirm_selection restartProbe).text_items = [] := by
  refine ⟨(restart_amended restartProbe).2.2.2.2.1,
    ((restart_amended restartProbe).2.2.2.2.2 rfl).2.2⟩

/-! ### C4: snapshot-based undo -/

theorem over_eq_top {top bot : Canvas} (h : Covers top bot) : over bot top = top := by
  funext p
  show (match top p with
    | some col => some col
    | none => bot p) = top p
  cases htop : top p with
  | some c => rfl
  | none => exact h p htop

theorem covers_blank (c : Canvas) : Covers c blank := fun _ _ => rfl

theorem covers_drawOp (px : PixelSet) (c : Canvas) : Covers (drawOp px c) c := by
  intro p hp
  unfold drawOp at hp
  by_cases hpx : px p = true
  · rw [if_pos hpx] at hp
    cases hp
  · rwa [if_neg hpx] at hp

theorem redraw_chain (l : List Canvas) (h : CanvasChain l) :
    redraw_canvas l = l.getLastD blank := by
  suffices aux : ∀ (l : List Canvas) (acc : Canvas), CanvasChain l →
      (∀ hd, l.head? = some hd → Covers hd acc) →
      l.foldl over acc = l.getLastD acc from
    aux l blank h (fun hd _ => covers_blank hd)
  intro l
  induction l with
  | nil => intro acc _ _; rfl
  | cons hd tl ih =>
    intro acc hchain hcov
    rw [List.foldl_cons, over_eq_top (hcov hd rfl), List.getLastD_cons]
    unfold CanvasChain at hchain
    have hparts := List.chain'_cons'.mp hchain
    exact ih hd hparts.2 (fun b hb => hparts.1 b hb)

theorem press_nontext (s : AnnotatorState) (pt : Point) (d : String × Bool)
    (hmode : s.mode ≠ Mode.text) :
    (annotation_mousePressEvent s pt d).ann_actions = s.ann_actions ∧
    (annotation_mousePressEvent s pt d).annotation_canvas = s.annotation_canvas ∧
    (annotation_mousePressEvent s pt d).selected_text = s.selected_text ∧
    (annotation_mousePressEvent s pt d).mode = s.mode ∧
    (annotation_mousePressEvent s pt d).ann_drawing = true := by
  unfold annotation_mousePressEvent
  cases hm : s.mode with
  | text => exact absurd hm hmode
  | freestyle => exact ⟨rfl, rfl, rfl, rfl, rfl⟩
  | rect => exact ⟨rfl, rfl, rfl, rfl, rfl⟩
  | arrow => exact ⟨rfl, rfl, rfl, rfl, rfl⟩

theorem release_commit (px : PixelSet) (s : AnnotatorState)
    (hsel : s.selected_text = none) (hdraw : s.ann_drawing = true) :
    annotation_mouseReleaseEvent px s =
      { s with ann_drawing := false,
               annotation_canvas := drawOp px s.annotation_canvas,
               ann_actions := s.ann_actions ++ [drawOp px s.annotation_canvas] } := by
  unfold annotation_mouseReleaseEvent
  simp only [hsel]
  rw [if_pos hdraw]

theorem strokeStep_fields (s : AnnotatorState) (st : Point × PixelSet)
    (hsel : s.selected_text = none) (hmode : s.mode ≠ Mode.text) :
    (strokeStep s st).ann_actions = s.ann_actions ++ [drawOp st.2 s.annotation_canvas] ∧
    (strokeStep s st).annotation_canvas = drawOp st.2 s.annotation_canvas ∧
    (strokeStep s st).selected_text = none ∧
    (strokeStep s st).mode = s.mode := by
  obtain ⟨ha, hc, hs, hm, hd⟩ := press_nontext s st.1 ("", false) hmode
  unfold strokeStep
  rw [release_commit st.2 _ (hs.trans hsel) hd]
  refine ⟨?_, ?_, ?_, ?_⟩
  · show (annotation_mousePressEvent s st.1 ("", false)).ann_actions ++
      [drawOp st.2 (annotation_mousePressEvent s st.1 ("", false)).annotation_canvas] = _
    rw [ha, hc]
  · show drawOp st.2 (annotation_mousePressEvent s st.1 ("", false)).annotation_canvas = _
    rw [hc]
  · show (annotation_mousePressEvent s st.1 ("", false)).selected_text = none
    exact hs.trans hsel
  · show (annotation_mousePressEvent s st.1 ("", false)).mode = s.mode
    exact hm

theorem annInv_strokeStep (s : AnnotatorState) (st : Point × PixelSet)
    (hinv : AnnInv s) : AnnInv (strokeStep s st) := by
  obtain ⟨hchain, hcanvas, hsel, hmode⟩ := hinv
  obtain ⟨ha, hc, hs, hm⟩ := strokeStep_fields s st hsel hmode
  refine ⟨?_, ?_, hs, ?_⟩
  · rw [ha]
    unfold CanvasChain at hchain ⊢
    rw [List.chain'_append]
    refine ⟨hchain, List.chain'_singleton _, ?_⟩
    intro x hx y hy
    simp at hy
    subst hy
    rw [Option.mem_def] at hx
    have hx' : s.ann_actions.getLastD blank = x := by
      rw [List.getLastD_eq_getLast?, hx]
      rfl
    have hxc : s.annotation_canvas = x := hcanvas.trans hx'
    rw [← hxc]
    exact covers_drawOp st.2 s.annotation_canvas
  · rw [ha, hc, List.getLastD_eq_getLast?, List.getLast?_concat]
    rfl
  · rw [hm]
    exact hmode

theorem annInv_undo (s : AnnotatorState) (hinv : AnnInv s) :
    AnnInv (undo s) ∧ (undo s).ann_actions = s.ann_actions.dropLast := by
  obtain ⟨hchain, hcanvas, hsel, hmode⟩ := hinv
  unfold undo
  by_cases hacts : s.ann_actions.isEmpty = true
  · rw [if_pos hacts]
    have hnil : s.ann_actions = [] := by
      rcases hl : s.ann_actions with _ | ⟨a, l⟩
      · rfl
      · rw [hl] at hacts; simp at hacts
    exact ⟨⟨hchain, hcanvas, hsel, hmode⟩, by simp [hnil]⟩
  · rw [if_neg hacts]
    have hne : s.ann_actions ≠ [] := by
      intro h
      rw [h] at hacts
      exact hacts rfl
    have hchain' : CanvasChain s.ann_actions.dropLast := by
      have hsplit := List.dropLast_append_getLast hne
      unfold CanvasChain at hchain ⊢
      rw [← hsplit] at hchain
      exact (List.chain'_append.mp hchain).1
    refine ⟨⟨hchain', ?_, hsel, hmode⟩, rfl⟩
    show redraw_canvas s.ann_actions.dropLast = s.ann_actions.dropLast.getLastD blank
    exact redraw_chain _ hchain'

theorem annInv_iterate_undo (k : ℕ) (s : AnnotatorState) (hinv : AnnInv s) :
    AnnInv (undo^[k] s) := by
  induction k generalizing s with
  | zero => exact hinv
  | succ k ih =>
    rw [Function.iterate_succ_apply]
    exact ih _ (annInv_undo s hinv).1

theorem annInv_undo_iter (n : ℕ) : ∀ s, AnnInv s → s.ann_actions.length = n →
    (undo^[n] s).ann_actions = [] ∧ (undo^[n] s).annotation_canvas = blank := by
  induction n with
  | zero =>
    intro s hinv hlen
    have hnil : s.ann_actions = [] := List.length_eq_zero.mp hlen
    rw [Function.iterate_zero_apply]
    refine ⟨hnil, ?_⟩
    rw [hinv.2.1, hnil]
    rfl
  | succ n ih =>
    intro s hinv hlen
    rw [Function.iterate_succ_apply]
    obtain ⟨hinv', hacts⟩ := annInv_undo s hinv
    apply ih _ hinv'
    rw [hacts, List.length_dropLast, hlen]
    omega

theorem undo_empty_noop (s : AnnotatorState) (h : s.ann_actions = []) : undo s = s := by
  unfold undo
  rw [h]
  simp

theorem annInv_runStrokes (ops : List (Point × PixelSet)) :
    ∀ s, AnnInv s → AnnInv (runStrokes s ops) := by
  induction ops with
  | nil => intro s h; exact h
  | cons op ops ih =>
    intro s h
    show AnnInv ((op :: ops).foldl strokeStep s)
    rw [List.foldl_cons]
    exact ih _ (annInv_strokeStep s op h)

/-- **C4** (confirmed): from any post-confirmation state (blank canvas, empty
undo stack, no text drag, raster mode), after any sequence of committed
strokes and any number of undos: a further `undo` pops the stack and leaves
the canvas byte-identical (extensionally equal) to the new top snapshot
(blank when the stack empties); `undo` repeated `length` times empties the
stack and restores the all-transparent canvas; and `undo` on an empty stack
is a no-op. -/
theorem undo_restores_snapshots (s0 : AnnotatorState)
    (hacts0 : s0.ann_actions = []) (hcanvas0 : s0.annotation_canvas = blank)
    (hsel0 : s0.selected_text = none) (hmode0 : s0.mode ≠ Mode.text)
    (ops : List (Point × PixelSet)) (k : ℕ) :
    ((undo^[k] (runStrokes s0 ops)).ann_actions = [] →
        undo (undo^[k] (runStrokes s0 ops)) = undo^[k] (runStrokes s0 ops)) ∧
    (undo (undo^[k] (runStrokes s0 ops))).ann_actions
        = (undo^[k] (runStrokes s0 ops)).ann_actions.dropLast ∧
    (undo (undo^[k] (runStrokes s0 ops))).annotation_canvas
        = (undo^[k] (runStrokes s0 ops)).ann_actions.dropLast.getLastD blank ∧
    (undo^[(undo^[k] (runStrokes s0 ops)).ann_actions.length]
        (undo^[k] (runStrokes s0 ops))).ann_actions = [] ∧
    (undo^[(undo^[k] (runStrokes s0 ops)).ann_actions.length]
        (undo^[k] (runStrokes s0 ops))).annotation_canvas = blank := by
  have hinv0 : AnnInv s0 := by
    refine ⟨?_, ?_, hsel0, hmode0⟩
    · rw [hacts0]
      exact List.chain'_nil
    · rw [hacts0, hcanvas0]
      rfl
  have hinv : AnnInv (undo^[k] (runStrokes s0 ops)) :=
    annInv_iterate_undo k _ (annInv_runStrokes ops s0 hinv0)
  obtain ⟨hinvU, hactsU⟩ := annInv_undo _ hinv
  have hiter := annInv_undo_iter (undo^[k] (runStrokes s0 ops)).ann_actions.length
    (undo^[k] (runStrokes s0 ops)) hinv rfl
  refine ⟨?_, hactsU, ?_, hiter.1, hiter.2⟩
  · intro hempty
    exact undo_empty_noop _ hempty
  · rw [hinvU.2.1, hactsU]

/-- Witness for **C4**: one committed stroke, then one `undo`, pops the
single snapshot. -/
theorem undo_restores_snapshots_witness :
    (undo (undo^[0] (runStrokes annotInit [(⟨1, 1⟩, px0)]))).ann_actions
      = (undo^[0] (runStrokes annotInit [(⟨1, 1⟩, px0)])).ann_actions.dropLast :=
  (undo_restores_snapshots annotInit rfl rfl rfl (by decide) [(⟨1, 1⟩, px0)] 0).2.1

/-! ### C9: arrow barbs are truncated to integer pixels -/

theorem abs_pyInt_sub_lt_one (x : ℝ) : |((pyInt x : ℤ) : ℝ) - x| < 1 := by
  unfold pyInt
  by_cases hx : 0 ≤ x
  · rw [if_pos hx, abs_lt]
    constructor
    · have hfl := Int.lt_floor_add_one x
      linarith
    · have hfl := Int.floor_le x
      linarith
  · rw [if_neg hx, abs_lt]
    constructor
    · have hcl := Int.le_ceil x
      linarith
    · have hcl := Int.ceil_lt_add_one x
      linarith

theorem arrowAngle_eval : arrowAngle ⟨0, 0⟩ ⟨10, 0⟩ = 0 := by
  unfold arrowAngle
  norm_num
  unfold atan2
  rw [if_pos (by norm_num : (0 : ℝ) < 10)]
  norm_num [Real.arctan_zero]

theorem barbRealX_eval :
    barbRealX ⟨0, 0⟩ ⟨10, 0⟩ (Real.pi / 6) = 10 - 5 * Real.sqrt 3 := by
  unfold barbRealX
  rw [arrowAngle_eval, zero_add, Real.cos_pi_div_six]
  push_cast
  ring

theorem pyInt_approx (f e δ : ℝ) (h : |f - e| ≤ δ) :
    |((pyInt f : ℤ) : ℝ) - e| < 1 + δ := by
  have h1 := abs_pyInt_sub_lt_one f
  have h2 := abs_sub_le (((pyInt f : ℤ) : ℝ)) f e
  linarith

/-- Counterexample to **C9** as stated: the drawn barb endpoints are integer
pixel points (`QPoint` applies `int(...)` to each coordinate), but for the
arrow from `(0,0)` to `(10,0)` *no* integer point lies exactly at +30° from
the shaft direction at the fixed barb length 10 from the tip: that exact
point is `(10 - 5·√3, -5)` and its x-coordinate is irrational.  So whatever
values the double-precision pipeline produces (in actual Python it truncates
`-4.999999999999999` to `-4`), the drawn figure cannot have barb endpoints
at exactly ±30° with the fixed length, and the claim fails at this input. -/
theorem arrow_exact_barbs_cex : ¬ ExactBarbPixelExists ⟨0, 0⟩ ⟨10, 0⟩ (Real.pi / 6) := by
  rintro ⟨b, hbx, -⟩
  rw [barbRealX_eval] at hbx
  have hirr : Irrational (Real.sqrt 3) := (Nat.prime_three).irrational_sqrt
  refine hirr ⟨((10 - b.x : ℤ) : ℚ) / 5, ?_⟩
  push_cast
  linarith

/-- **C9** (amended): `draw_arrow` paints a straight shaft from `p1` to `p2`
plus two barbs meeting at the terminal point `p2`; the barb endpoints are
the componentwise `int`-truncations of the double-precision evaluations of
the ±30° (± π/6), fixed-length-10 coordinate expressions — so whenever those
evaluations are within `δ` of the exact values, each drawn coordinate is
within `1 + δ` of the exact ±30° point.  The angles and lengths are exact
only in the ideal pre-float geometry, never of the drawn integer endpoints. -/
theorem draw_arrow_float_barbs (p1 p2 : Point) (f1x f1y f2x f2y δ : ℝ)
    (h1x : |f1x - barbRealX p1 p2 (Real.pi / 6)| ≤ δ)
    (h1y : |f1y - barbRealY p1 p2 (Real.pi / 6)| ≤ δ)
    (h2x : |f2x - barbRealX p1 p2 (-(Real.pi / 6))| ≤ δ)
    (h2y : |f2y - barbRealY p1 p2 (-(Real.pi / 6))| ≤ δ) :
    draw_arrow p1 p2 f1x f1y f2x f2y
        = [(p1, p2), (p2, ⟨pyInt f1x, pyInt f1y⟩), (p2, ⟨pyInt f2x, pyInt f2y⟩)] ∧
    |((pyInt f1x : ℤ) : ℝ) - barbRealX p1 p2 (Real.pi / 6)| < 1 + δ ∧
    |((pyInt f1y : ℤ) : ℝ) - barbRealY p1 p2 (Real.pi / 6)| < 1 + δ ∧
    |((pyInt f2x : ℤ) : ℝ) - barbRealX p1 p2 (-(Real.pi / 6))| < 1 + δ ∧
    |((pyInt f2y : ℤ) : ℝ) - barbRealY p1 p2 (-(Real.pi / 6))| < 1 + δ :=
  ⟨rfl, pyInt_approx _ _ _ h1x, pyInt_approx _ _ _ h1y,
    pyInt_approx _ _ _ h2x, pyInt_approx _ _ _ h2y⟩

/-- Witness for **C9** (amended), at the concrete arrow `(0,0) → (10,0)`
with zero float error. -/
theorem draw_arrow_float_barbs_witness :
    |((pyInt (barbRealX ⟨0, 0⟩ ⟨10, 0⟩ (Real.pi / 6)) : ℤ) : ℝ)
        - barbRealX ⟨0, 0⟩ ⟨10, 0⟩ (Real.pi / 6)| < 1 + 0 :=
  (draw_arrow_float_barbs ⟨0, 0⟩ ⟨10, 0⟩
    (barbRealX ⟨0, 0⟩ ⟨10, 0⟩ (Real.pi / 6)) (barbRealY ⟨0, 0⟩ ⟨10, 0⟩ (Real.pi / 6))
    (barbRealX ⟨0, 0⟩ ⟨10, 0⟩ (-(Real.pi / 6))) (barbRealY ⟨0, 0⟩ ⟨10, 0⟩ (-(Real.pi / 6)))
    0 (by simp) (by simp) (by simp) (by simp)).2.1

end Screencapture
